import Mathlib

/-!
Verification of the vxi_dash frontend against its specification.

The definitions below are shallow embeddings of the TypeScript sources:

* `frontend/src/types/monitoring.ts` — the state-machine data model
  (`State`, `Rule`, `Transition`, `MonitoringSetup`);
* `frontend/src/utils/stateMachineValidation.ts` — `validateStateMachine`,
  `findUnreachableStates`, `findDeadEndStates`, `getStateName`;
* `frontend/src/components/monitoring/MonitoringSetupList.tsx` —
  `handleStartStateMachine`, `handleUpdate`;
* `frontend/src/components/monitoring/MonitoringSetupForm.tsx` —
  `handleSubmit` (frequency computation), `buildTarget` (capability load);
* `frontend/src/components/monitoring/StateMachineEditor.tsx` —
  `handleAddState`, `handleDeleteState`, `handleSetInitialState`;
* `frontend/src/components/interactive/ModeControl.tsx` — `executeCommand`
  (parameter substitution);
* `frontend/src/components/instruments/InstrumentWizard.tsx` —
  `handleSubmit` (capability persist);
* `frontend/src/utils/format.ts` — `formatWithSIPrefix`.

JavaScript numbers are modelled as exact rationals (`ℚ`), JS strings as Lean
`String`, `undefined`/optional fields as `Option`, and JS `Record` objects as
association lists in insertion order.  Validation messages, which in the
source are interpolated strings with one distinct template per error kind,
are modelled as a structured inductive carrying the interpolated data.
-/

namespace VxiDash

/-- Rule discriminator, from the `type` field of `Rule` in
`types/monitoring.ts` (`'sensor' | 'timeInState' | 'totalTime'`). -/
inductive RuleType where
  | sensor
  | timeInState
  | totalTime
deriving DecidableEq

/-- Comparison operator of a sensor rule
(`'>' | '>=' | '<' | '<=' | '==' | '!='`). -/
inductive CmpOp where
  | gt
  | ge
  | lt
  | le
  | eq
  | ne
deriving DecidableEq

/-- `Rule` from `types/monitoring.ts`: all payload fields are optional in the
TypeScript interface, so each is an `Option` here. -/
structure Rule where
  type : RuleType
  signalName : Option String := none
  operator : Option CmpOp := none
  value : Option ℚ := none
  seconds : Option ℚ := none
deriving DecidableEq

/-- `Transition` from `types/monitoring.ts`. -/
structure Transition where
  id : String
  sourceStateID : String
  targetStateID : String
  rules : List Rule
deriving DecidableEq

/-- One entry of `StateInstrumentSettings` (value of the
`instrumentId → {modeId, modeParams}` record). -/
structure InstrumentSetting where
  modeId : String
  modeParams : List (String × String)
deriving DecidableEq

/-- `State` from `types/monitoring.ts`; `instrumentSettings` is the record
keyed by instrument id, modelled as an association list. -/
structure SMState where
  id : String
  name : String
  isEndState : Bool
  instrumentSettings : List (String × InstrumentSetting)
deriving DecidableEq

/-- Severity of a validation issue (`'error' | 'warning'`). -/
inductive Severity where
  | error
  | warning
deriving DecidableEq

/-- The message of a `ValidationIssue`.  Each constructor corresponds to one
distinct message template of `stateMachineValidation.ts`, carrying the data
interpolated into that template (indices are the raw 0-based loop indices;
the source displays `index + 1`). -/
inductive VMsg where
  | noStates
  | noInitialState
  | initialStateMissing (initialStateID : String)
  | initialStateIsEnd (stateId stateName : String)
  | duplicateStateIds (ids : List String)
  | stateHasNoName (stateId : String)
  | unreachableState (stateName : String)
  | deadEndState (stateName : String)
  | missingSourceState (index : Nat) (sourceId : String)
  | missingTargetState (index : Nat) (targetId : String)
  | emptyRules (sourceName targetName : String)
  | missingSignalName (ruleIndex : Nat) (sourceName : String)
  | missingOperator (ruleIndex : Nat) (sourceName : String)
  | missingThreshold (ruleIndex : Nat) (sourceName : String)
  | invalidTimeValue (ruleIndex : Nat) (sourceName : String)
  | noEndStates
  | noInstrumentSettings (stateName : String)
deriving DecidableEq

/-- `ValidationIssue` from `stateMachineValidation.ts`. -/
structure ValidationIssue where
  severity : Severity
  message : VMsg
  stateId : Option String := none
  stateName : Option String := none
deriving DecidableEq

/-- `ValidationResult` from `stateMachineValidation.ts`. -/
structure ValidationResult where
  valid : Bool
  errors : List ValidationIssue
  warnings : List ValidationIssue
deriving DecidableEq

/-- JS truthiness test for an optional string: `!x` is true when `x` is
`undefined` or the empty string. -/
def strFalsy : Option String → Bool
  | none => true
  | some s => s = ""

/-- The body of one `forEach` step of the reachability loop of
`findUnreachableStates` (`stateMachineValidation.ts`, lines 215-219): add the
target of a transition whose source is already reachable. -/
def reachStep (r : List String) (t : Transition) : List String :=
  if t.sourceStateID ∈ r ∧ t.targetStateID ∉ r then r ++ [t.targetStateID] else r

/-- One `forEach` pass of the reachability loop (lines 213-220).  Later
transitions of the same pass observe additions made by earlier ones, as with
the mutated JS `Set`. -/
def reachPass (transitions : List Transition) (reach : List String) : List String :=
  transitions.foldl reachStep reach

/-- The `while (changed)` loop of `findUnreachableStates`: repeat `reachPass`
until a pass adds nothing.  The JS loop is unbounded; here it carries fuel,
and `reachLoop_fixpoint` below proves that `transitions.length + 1` passes
always reach the fixpoint, so the fuelled function equals the JS loop. -/
def reachLoop (transitions : List Transition) : Nat → List String → List String
  | 0, r => r
  | Nat.succ n, r =>
    let r' := reachPass transitions r
    if r' = r then r else reachLoop transitions n r'

/-- `findUnreachableStates` (`stateMachineValidation.ts`, lines 201-224).
`if (!initialStateID) return states` also fires for the empty string. -/
def findUnreachableStates (states : List SMState) (transitions : List Transition)
    (initialStateID : Option String) : List SMState :=
  match initialStateID with
  | none => states
  | some i =>
    if i = "" then states
    else
      let reach := reachLoop transitions (transitions.length + 1) [i]
      states.filter (fun s => decide (s.id ∉ reach))

/-- `findDeadEndStates` (`stateMachineValidation.ts`, lines 229-232). -/
def findDeadEndStates (states : List SMState) (transitions : List Transition) :
    List SMState :=
  let statesWithOutgoing := transitions.map (·.sourceStateID)
  states.filter (fun s => !s.isEndState && !statesWithOutgoing.contains s.id)

/-- `getStateName` (`stateMachineValidation.ts`, lines 237-240):
`state?.name || stateId`. -/
def getStateName (states : List SMState) (stateId : String) : String :=
  match states.find? (fun s => s.id == stateId) with
  | some st => if st.name = "" then stateId else st.name
  | none => stateId

/-- Checks 2-4 of `validateStateMachine` (lines 41-65): initial-state errors. -/
def initialIssues (states : List SMState) : Option String → List ValidationIssue
  | none => [⟨Severity.error, VMsg.noInitialState, none, none⟩]
  | some i =>
    if i = "" then [⟨Severity.error, VMsg.noInitialState, none, none⟩]
    else
      match states.find? (fun s => s.id == i) with
      | none => [⟨Severity.error, VMsg.initialStateMissing i, some i, none⟩]
      | some st =>
        if st.isEndState then
          [⟨Severity.error, VMsg.initialStateIsEnd st.id st.name, some st.id, some st.name⟩]
        else []

/-- Check 5 (lines 67-75): ids whose first index differs from their own
position, i.e. `stateIds.filter((id, index) => stateIds.indexOf(id) !== index)`. -/
def duplicateIds (states : List SMState) : List String :=
  let stateIds := states.map (·.id)
  (stateIds.enum.filter (fun p => stateIds.indexOf p.2 ≠ p.1)).map (·.2)

/-- Check 5 continued: the single error pushed when duplicates exist. -/
def duplicateIssues (states : List SMState) : List ValidationIssue :=
  let d := duplicateIds states
  if d = [] then [] else [⟨Severity.error, VMsg.duplicateStateIds d, none, none⟩]

/-- Check 6 (lines 77-86): warning per state whose name is blank. -/
def nameWarnings (states : List SMState) : List ValidationIssue :=
  states.filterMap (fun s =>
    if s.name.trim = "" then
      some ⟨Severity.warning, VMsg.stateHasNoName s.id, some s.id, none⟩
    else none)

/-- Check 7 (lines 88-97): unreachable-state warnings. -/
def unreachableWarnings (states : List SMState) (transitions : List Transition)
    (initialStateID : Option String) : List ValidationIssue :=
  (findUnreachableStates states transitions initialStateID).map (fun s =>
    ⟨Severity.warning, VMsg.unreachableState s.name, some s.id, some s.name⟩)

/-- Check 8 (lines 99-108): dead-end-state warnings. -/
def deadEndWarnings (states : List SMState) (transitions : List Transition) :
    List ValidationIssue :=
  (findDeadEndStates states transitions).map (fun s =>
    ⟨Severity.warning, VMsg.deadEndState s.name, some s.id, some s.name⟩)

/-- Per-rule checks of check 9 (lines 138-166). -/
def ruleIssues (states : List SMState) (t : Transition) (ruleIndex : Nat) (r : Rule) :
    List ValidationIssue :=
  match r.type with
  | RuleType.sensor =>
    (if strFalsy r.signalName then
      [⟨Severity.error, VMsg.missingSignalName ruleIndex (getStateName states t.sourceStateID),
        none, none⟩]
     else []) ++
    (if r.operator = none then
      [⟨Severity.error, VMsg.missingOperator ruleIndex (getStateName states t.sourceStateID),
        none, none⟩]
     else []) ++
    (if r.value = none then
      [⟨Severity.error, VMsg.missingThreshold ruleIndex (getStateName states t.sourceStateID),
        none, none⟩]
     else [])
  | _ =>
    match r.seconds with
    | none =>
      [⟨Severity.error, VMsg.invalidTimeValue ruleIndex (getStateName states t.sourceStateID),
        none, none⟩]
    | some s =>
      if s < 0 then
        [⟨Severity.error, VMsg.invalidTimeValue ruleIndex (getStateName states t.sourceStateID),
          none, none⟩]
      else []

/-- Check 9 for one transition (lines 111-168): missing source/target errors,
then the empty-rules warning or the per-rule errors.  Errors and warnings are
produced into one list here and partitioned by severity by the caller, which
preserves the push order of the source. -/
def transitionIssues (states : List SMState) (index : Nat) (t : Transition) :
    List ValidationIssue :=
  (if states.any (fun s => s.id == t.sourceStateID) then []
   else [⟨Severity.error, VMsg.missingSourceState index t.sourceStateID, none, none⟩]) ++
  (if states.any (fun s => s.id == t.targetStateID) then []
   else [⟨Severity.error, VMsg.missingTargetState index t.targetStateID, none, none⟩]) ++
  (if t.rules = [] then
    [⟨Severity.warning,
      VMsg.emptyRules (getStateName states t.sourceStateID) (getStateName states t.targetStateID),
      none, none⟩]
   else
    (t.rules.enum.map (fun p => ruleIssues states t p.1 p.2)).flatten)

/-- Check 10 (lines 170-177): warn when no end state exists. -/
def endStateWarnings (states : List SMState) : List ValidationIssue :=
  if states.filter (·.isEndState) = [] then
    [⟨Severity.warning, VMsg.noEndStates, none, none⟩]
  else []

/-- Check 11 (lines 179-189): warn per state without instrument settings. -/
def settingsWarnings (states : List SMState) : List ValidationIssue :=
  states.filterMap (fun s =>
    if s.instrumentSettings = [] then
      some ⟨Severity.warning, VMsg.noInstrumentSettings s.name, some s.id, some s.name⟩
    else none)

/-- `validateStateMachine` (`stateMachineValidation.ts`, lines 24-196).
`valid` is `errors.length === 0`; the empty-state check returns early. -/
def validateStateMachine (states : List SMState) (transitions : List Transition)
    (initialStateID : Option String) : ValidationResult :=
  if states = [] then
    ⟨false, [⟨Severity.error, VMsg.noStates, none, none⟩], []⟩
  else
    let transIss := (transitions.enum.map (fun p => transitionIssues states p.1 p.2)).flatten
    let errors :=
      initialIssues states initialStateID ++ duplicateIssues states ++
        transIss.filter (fun e => e.severity == Severity.error)
    let warnings :=
      nameWarnings states ++ unreachableWarnings states transitions initialStateID ++
        deadEndWarnings states transitions ++
        transIss.filter (fun e => e.severity == Severity.warning) ++
        endStateWarnings states ++ settingsWarnings states
    ⟨errors.isEmpty, errors, warnings⟩


/-- `MonitoringSetup` from `types/monitoring.ts`, restricted to the fields the
state-machine start path reads (`id`, `states?`, `transitions?`,
`initialStateID?`); optional arrays are `Option`s as in the interface. -/
structure Setup where
  id : Nat
  name : String
  frequency_hz : ℚ
  states : Option (List SMState) := none
  transitions : Option (List Transition) := none
  initialStateID : Option String := none
deriving DecidableEq

/-- Whether `handleStartStateMachine` (`MonitoringSetupList.tsx`, lines
218-247) reaches `startStateMachine(id)`.  `confirmWarnings` is the user's
answer to the `confirm` dialog shown when validation produced warnings.
Validation runs only when the setup is found and `setup.states` is a
non-empty array; otherwise the start request is issued directly. -/
def smStartIssued (setups : List Setup) (id : Nat) (confirmWarnings : Bool) : Bool :=
  match setups.find? (fun s => s.id == id) with
  | some setup =>
    match setup.states with
    | some sts =>
      if sts = [] then true
      else
        let v := validateStateMachine sts (setup.transitions.getD []) setup.initialStateID
        if !v.valid then false
        else if v.warnings ≠ [] ∧ confirmWarnings = false then false
        else true
    | none => true
  | none => true

/-- The collection-interval to frequency conversion used by both
`MonitoringSetupForm.handleSubmit` (line 66) and
`MonitoringSetupList.handleUpdate` (line 160):
`seconds > 0 ? 1 / seconds : 0`. -/
def computeFreqHz (seconds : ℚ) : ℚ :=
  if seconds > 0 then 1 / seconds else 0

/-- `handleAddState` (`StateMachineEditor.tsx`, lines 32-46): append a fresh
state; the first state added becomes the initial state. -/
def handleAddState (states : List SMState) (initialStateID : Option String)
    (nextStateId : Nat) (isEndState : Bool) : List SMState × Option String :=
  let newState : SMState :=
    ⟨"state_" ++ toString nextStateId,
     (if isEndState then "End State " else "State ") ++ toString nextStateId,
     isEndState, []⟩
  let newInitialStateID := if states = [] then some newState.id else initialStateID
  (states ++ [newState], newInitialStateID)

/-- `handleDeleteState` (`StateMachineEditor.tsx`, lines 53-63): remove the
state; if it was the initial state, fall back to the first remaining state or
clear the initial state. -/
def handleDeleteState (states : List SMState) (initialStateID : Option String)
    (stateId : String) : List SMState × Option String :=
  let newStates := states.filter (fun s => decide (s.id ≠ stateId))
  let newInitialStateID :=
    if initialStateID = some stateId then
      match newStates with
      | [] => none
      | s0 :: _ => some s0.id
    else initialStateID
  (newStates, newInitialStateID)

/-- `handleSetInitialState` (`StateMachineEditor.tsx`, lines 65-67).  The
editor renders its trigger button only next to a state of the list, so the
argument is always the id of some listed state. -/
def handleSetInitialState (states : List SMState) (stateId : String) :
    List SMState × Option String :=
  (states, some stateId)

/-- The §3 invariant `setup.initial_state_id, if set, references a state in
setup.states`, on an editor configuration. -/
def initialRefIn (states : List SMState) (initialStateID : Option String) : Prop :=
  ∀ i, initialStateID = some i → ∃ s ∈ states, s.id = i

/-- Replace the first occurrence of `pat` in a character list by `rep`,
returning the list unchanged when `pat` does not occur: the semantics of
JavaScript `String.prototype.replace` with a string pattern (replacement
values that contain `$` substitution sequences are outside this model). -/
def replaceFirstList (pat rep : List Char) : List Char → List Char
  | [] => if pat.isPrefixOf ([] : List Char) then rep else []
  | c :: cs =>
    if pat.isPrefixOf (c :: cs) then rep ++ (c :: cs).drop pat.length
    else c :: replaceFirstList pat rep cs

/-- String version of `replaceFirstList`. -/
def replaceFirst (s pat rep : String) : String :=
  ⟨replaceFirstList pat.data rep.data s.data⟩

/-- The command actually sent by `executeCommand` (`ModeControl.tsx`, lines
252-258): for each `[key, value]` of `Object.entries(parameters)` in
insertion order, `finalCommand = finalCommand.replace('{key}', value)`. -/
def executeCommandSent (command : String) (parameters : List (String × String)) : String :=
  parameters.foldl (fun cmd kv => replaceFirst cmd ("\x7b" ++ kv.1 ++ "\x7d") kv.2) command

/-- JSON values, the target of `JSON.stringify` and the result of
`JSON.parse`.  The wizard persists the capability as
`JSON.stringify(obj)` and `buildTarget` recovers it with `JSON.parse`;
since `parse ∘ stringify` is the identity on JSON trees, persisting and
loading are modelled directly on this tree type. -/
inductive Json where
  | null
  | bool (b : Bool)
  | num (q : ℚ)
  | str (s : String)
  | arr (elements : List Json)
  | obj (fields : List (String × Json))

/-- `Signal` from `types/instrumentConfig.ts`. -/
structure SignalDef where
  id : String
  name : String
  measureCommand : String
deriving DecidableEq

/-- `Mode` from `types/instrumentConfig.ts`; `parameters` is the list of
`ModeParameter` names. -/
structure ModeDef where
  id : String
  name : String
  enableCommands : String
  disableCommands : String
  parameters : List String
deriving DecidableEq

/-- `SignalModeConfig` from `types/instrumentConfig.ts`. -/
structure SignalModeConfig where
  modeId : String
  signalId : String
  unit : String
  scalingFactor : ℚ
deriving DecidableEq

/-- The capability document the instrument wizard serializes into the
instrument description field (`InstrumentWizard.handleSubmit`, lines
338-343): description text, signals, modes and the signal×mode matrix. -/
structure CapabilityDoc where
  description : String
  signals : List SignalDef
  modes : List ModeDef
  signalModeConfigs : List SignalModeConfig
deriving DecidableEq

/-- JSON encoding of a `Signal` object literal. -/
def encodeSignal (s : SignalDef) : Json :=
  Json.obj [("id", Json.str s.id), ("name", Json.str s.name),
    ("measureCommand", Json.str s.measureCommand)]

/-- JSON encoding of a `Mode` object literal; `parameters` is an array of
`{name}` objects. -/
def encodeMode (m : ModeDef) : Json :=
  Json.obj [("id", Json.str m.id), ("name", Json.str m.name),
    ("enableCommands", Json.str m.enableCommands),
    ("disableCommands", Json.str m.disableCommands),
    ("parameters", Json.arr (m.parameters.map (fun n => Json.obj [("name", Json.str n)])))]

/-- JSON encoding of a `SignalModeConfig` object literal. -/
def encodeSignalModeConfig (c : SignalModeConfig) : Json :=
  Json.obj [("modeId", Json.str c.modeId), ("signalId", Json.str c.signalId),
    ("unit", Json.str c.unit), ("scalingFactor", Json.num c.scalingFactor)]

/-- The JSON document built by `InstrumentWizard.handleSubmit` (lines
338-343) and stringified into the `description` field of the created
instrument. -/
def encodeCapability (c : CapabilityDoc) : Json :=
  Json.obj [("description", Json.str c.description),
    ("signals", Json.arr (c.signals.map encodeSignal)),
    ("modes", Json.arr (c.modes.map encodeMode)),
    ("signalModeConfigs", Json.arr (c.signalModeConfigs.map encodeSignalModeConfig))]

/-- Field lookup on a parsed JSON object. -/
def jlookup (fields : List (String × Json)) (key : String) : Option Json :=
  (fields.find? (fun p => p.1 == key)).map (·.2)

/-- Read a JSON value as a string. -/
def asString : Json → Option String
  | Json.str s => some s
  | _ => none

/-- Read a JSON value as a number. -/
def asNum : Json → Option ℚ
  | Json.num q => some q
  | _ => none

/-- Decode every element of a JSON array with `d`. -/
def decodeList (d : Json → Option α) : List Json → Option (List α)
  | [] => some []
  | x :: xs =>
    match d x, decodeList d xs with
    | some a, some rest => some (a :: rest)
    | _, _ => none

/-- Read a JSON value as an array decoded element-wise. -/
def asArr (d : Json → Option α) : Json → Option (List α)
  | Json.arr xs => decodeList d xs
  | _ => none

/-- Typed reading of a parsed signal object, as consumed through the
`InstrumentConfiguration` view (`buildTarget`, `MonitoringSetupForm.tsx`). -/
def decodeSignal (j : Json) : Option SignalDef :=
  match j with
  | Json.obj f => do
    let id ← (jlookup f "id").bind asString
    let name ← (jlookup f "name").bind asString
    let measureCommand ← (jlookup f "measureCommand").bind asString
    pure ⟨id, name, measureCommand⟩
  | _ => none

/-- Typed reading of a parsed mode object. -/
def decodeMode (j : Json) : Option ModeDef :=
  match j with
  | Json.obj f => do
    let id ← (jlookup f "id").bind asString
    let name ← (jlookup f "name").bind asString
    let enableCommands ← (jlookup f "enableCommands").bind asString
    let disableCommands ← (jlookup f "disableCommands").bind asString
    let parameters ← (jlookup f "parameters").bind
      (asArr (fun pj =>
        match pj with
        | Json.obj pf => (jlookup pf "name").bind asString
        | _ => none))
    pure ⟨id, name, enableCommands, disableCommands, parameters⟩
  | _ => none

/-- Typed reading of a parsed signal-mode matrix entry. -/
def decodeSignalModeConfig (j : Json) : Option SignalModeConfig :=
  match j with
  | Json.obj f => do
    let modeId ← (jlookup f "modeId").bind asString
    let signalId ← (jlookup f "signalId").bind asString
    let unit ← (jlookup f "unit").bind asString
    let scalingFactor ← (jlookup f "scalingFactor").bind asNum
    pure ⟨modeId, signalId, unit, scalingFactor⟩
  | _ => none

/-- Typed reading of the parsed capability document: the
`JSON.parse(inst.description) as InstrumentConfiguration` view used by
`buildTarget` (`MonitoringSetupForm.tsx`, lines 43-60). -/
def decodeCapability (j : Json) : Option CapabilityDoc :=
  match j with
  | Json.obj f => do
    let description ← (jlookup f "description").bind asString
    let signals ← (jlookup f "signals").bind (asArr decodeSignal)
    let modes ← (jlookup f "modes").bind (asArr decodeMode)
    let signalModeConfigs ← (jlookup f "signalModeConfigs").bind (asArr decodeSignalModeConfig)
    pure ⟨description, signals, modes, signalModeConfigs⟩
  | _ => none

/-- Modelled from the spec: the backend State Machine Engine (spec §4.5) is
not among the sources (only its frontend callers and its test documentation
are), so its per-tick rule context is modelled here.  `latestSample` maps a
signal name to its value in the latest reading, where `none` is a missing
signal and `some none` a null value. -/
structure TickContext where
  timeInState : ℚ
  totalTime : ℚ
  latestSample : List (String × Option ℚ)

/-- Modelled from the spec (§4.5 Tick, step 4): comparison of a sensor value
against the threshold; equality uses `|a - b| ≤ ε` with `ε = 1e-9`, and `≠`
is its negation. -/
def applyOp (op : CmpOp) (x threshold : ℚ) : Bool :=
  match op with
  | CmpOp.gt => threshold < x
  | CmpOp.ge => threshold ≤ x
  | CmpOp.lt => x < threshold
  | CmpOp.le => x ≤ threshold
  | CmpOp.eq => |x - threshold| ≤ 1 / 10 ^ 9
  | CmpOp.ne => ¬ (|x - threshold| ≤ 1 / 10 ^ 9)

/-- Modelled from the spec (§4.5 Tick, step 4): a single rule holds on a
tick.  A sensor rule whose signal is missing from the latest sample or null
is false (not an error); time rules compare elapsed time against `seconds`.
Rules missing their payload fields cannot hold. -/
def evaluateRule (ctx : TickContext) (r : Rule) : Bool :=
  match r.type with
  | RuleType.sensor =>
    match r.signalName, r.operator, r.value with
    | some sig, some op, some threshold =>
      match (ctx.latestSample.find? (fun p => p.1 == sig)).map (·.2) with
      | some (some x) => applyOp op x threshold
      | _ => false
    | _, _, _ => false
  | RuleType.timeInState =>
    match r.seconds with
    | some s => s ≤ ctx.timeInState
    | none => false
  | RuleType.totalTime =>
    match r.seconds with
    | some s => s ≤ ctx.totalTime
    | none => false

/-- Modelled from the spec (§4.5, edge cases): a transition fires when it
has at least one rule and every rule holds; a transition with zero rules
never fires. -/
def transitionFires (ctx : TickContext) (t : Transition) : Bool :=
  !t.rules.isEmpty && t.rules.all (evaluateRule ctx)

/-- Modelled from the spec (§4.5 Tick, step 3): among the outgoing
transitions of the current state, in setup order, the first that fires. -/
def selectTransition (ctx : TickContext) (transitions : List Transition)
    (currentStateId : String) : Option Transition :=
  (transitions.filter (fun t => t.sourceStateID == currentStateId)).find?
    (transitionFires ctx)

/-- Modelled from the spec (§4.5 Tick, step 5): the state after one tick
evaluation; unchanged when no transition fires. -/
def tickNextState (ctx : TickContext) (transitions : List Transition)
    (currentStateId : String) : String :=
  match selectTransition ctx transitions currentStateId with
  | some t => t.targetStateID
  | none => currentStateId

/-- A JavaScript number input to `formatWithSIPrefix`
(`number | null | undefined`, possibly `NaN`). -/
inductive JsNum where
  | null
  | undef
  | nan
  | num (q : ℚ)
deriving DecidableEq

/-- The display string of a formatted value: either the literal `'N/A'` or
`scaled.toFixed(digits)`, kept symbolic on the scaled rational. -/
inductive Display where
  | na
  | toFixed (q : ℚ) (digits : Nat)
deriving DecidableEq

/-- `FormattedValue` from `utils/format.ts`. -/
structure FormattedValue where
  value : JsNum
  valueDisplay : Display
  unitDisplay : String
  factor : ℚ
deriving DecidableEq

/-- `SCALE_UNITS` from `utils/format.ts`. -/
def SCALE_UNITS : List String := ["V", "A", "Ω", "Hz", "W", "s"]

/-- `NO_SCALE_UNITS` from `utils/format.ts`; the `undefined` member of the JS
set can never equal a string key and is dropped. -/
def NO_SCALE_UNITS : List String := ["dB", "dBm", "°C", ""]

/-- `SI_PREFIXES` from `utils/format.ts`, largest factor first. -/
def SI_PREFIXES : List (String × ℚ) :=
  [("T", 10 ^ 12), ("G", 10 ^ 9), ("M", 10 ^ 6), ("k", 10 ^ 3), ("", 1),
   ("m", 1 / 10 ^ 3), ("µ", 1 / 10 ^ 6), ("n", 1 / 10 ^ 9)]

/-- `formatWithSIPrefix` (`utils/format.ts`, lines 27-81). -/
def formatWithSIPrefix (value : JsNum) (unit : Option String) (digits : Nat) :
    FormattedValue :=
  match value with
  | JsNum.null => ⟨JsNum.nan, Display.na, unit.getD "", 1⟩
  | JsNum.undef => ⟨JsNum.nan, Display.na, unit.getD "", 1⟩
  | JsNum.nan => ⟨JsNum.nan, Display.na, unit.getD "", 1⟩
  | JsNum.num v =>
    let baseUnit := unit.getD ""
    if NO_SCALE_UNITS.contains baseUnit || !SCALE_UNITS.contains baseUnit then
      ⟨JsNum.num v, Display.toFixed v digits, baseUnit, 1⟩
    else
      let a := |v|
      if a = 0 then ⟨JsNum.num v, Display.toFixed v digits, baseUnit, 1⟩
      else
        match SI_PREFIXES.find? (fun p => decide (1 ≤ a / p.2 ∧ a / p.2 < 1000)) with
        | some p =>
          ⟨JsNum.num (v / p.2), Display.toFixed (v / p.2) digits, p.1 ++ baseUnit, p.2⟩
        | none =>
          if a < 1 / 10 ^ 9 then
            let last := SI_PREFIXES.getLastD ("n", 1 / 10 ^ 9)
            ⟨JsNum.num (v / last.2), Display.toFixed (v / last.2) digits,
             last.1 ++ baseUnit, last.2⟩
          else
            let first := SI_PREFIXES.headD ("T", 10 ^ 12)
            ⟨JsNum.num (v / first.2), Display.toFixed (v / first.2) digits,
             first.1 ++ baseUnit, first.2⟩


theorem validate_errors_eq (states : List SMState) (transitions : List Transition)
    (init : Option String) (h : states ≠ []) :
    (validateStateMachine states transitions init).errors =
      initialIssues states init ++ duplicateIssues states ++
        ((transitions.enum.map (fun p => transitionIssues states p.1 p.2)).flatten.filter
          (fun e => e.severity == Severity.error)) := by
  unfold validateStateMachine
  rw [if_neg h]

theorem validate_valid_eq (states : List SMState) (transitions : List Transition)
    (init : Option String) (h : states ≠ []) :
    (validateStateMachine states transitions init).valid =
      (validateStateMachine states transitions init).errors.isEmpty := by
  unfold validateStateMachine
  rw [if_neg h]

/-- C8: `validateStateMachine` returns `valid = true` exactly when its errors
list is empty; validity is computed from the errors list alone, so warning
entries never affect it. -/
theorem validateStateMachine_valid_iff_no_errors (states : List SMState)
    (transitions : List Transition) (init : Option String) :
    (validateStateMachine states transitions init).valid = true ↔
      (validateStateMachine states transitions init).errors = [] := by
  by_cases h : states = []
  · subst h
    unfold validateStateMachine
    simp
  · rw [validate_valid_eq states transitions init h, List.isEmpty_iff]

/-- C6 counterexample: a submitted collection interval of `0` seconds (the
value of a cleared interval field, since `Number('') = 0` and the field is
not `required`) yields `frequency_hz = 0`, which is not strictly positive. -/
theorem computeFreqHz_zero_interval :
    computeFreqHz 0 = 0 ∧ ¬ (0 < computeFreqHz 0) := by
  norm_num [computeFreqHz]

/-- C6 (amended): the frequency computed by the setup forms is strictly
positive for every strictly positive collection interval. -/
theorem computeFreqHz_pos_of_pos (seconds : ℚ) (h : 0 < seconds) :
    0 < computeFreqHz seconds := by
  unfold computeFreqHz
  rw [if_pos h]
  exact one_div_pos.mpr h

theorem computeFreqHz_pos_of_pos_witness : 0 < computeFreqHz 2 :=
  computeFreqHz_pos_of_pos 2 (by norm_num)

/-- C4: each state-machine editor operation keeps `initialStateID`, when
defined, equal to the id of a listed state; adding the first state makes it
the initial state; deleting the initial state falls back to a remaining state
or clears it; setting the initial state (only offered for listed states)
keeps the invariant. -/
theorem editor_preserves_initial_ref (states : List SMState) (init : Option String)
    (nextStateId : Nat) (isEnd : Bool) (sid : String)
    (h : initialRefIn states init) :
    initialRefIn (handleAddState states init nextStateId isEnd).1
        (handleAddState states init nextStateId isEnd).2
    ∧ (states = [] →
        (handleAddState states init nextStateId isEnd).2 =
          some ("state_" ++ toString nextStateId))
    ∧ initialRefIn (handleDeleteState states init sid).1
        (handleDeleteState states init sid).2
    ∧ ((∃ s ∈ states, s.id = sid) →
        initialRefIn (handleSetInitialState states sid).1
          (handleSetInitialState states sid).2) := by
  refine ⟨?_, ?_, ?_, ?_⟩
  · intro i hi
    simp only [handleAddState] at hi ⊢
    by_cases hemp : states = []
    · rw [if_pos hemp] at hi
      simp only [Option.some_inj] at hi
      subst hi
      exact ⟨_, List.mem_append_right _ (List.mem_singleton_self _), rfl⟩
    · rw [if_neg hemp] at hi
      obtain ⟨s, hs, hsid⟩ := h i hi
      exact ⟨s, List.mem_append_left _ hs, hsid⟩
  · intro hemp
    simp only [handleAddState]
    rw [if_pos hemp]
  · intro i hi
    simp only [handleDeleteState] at hi ⊢
    by_cases hdel : init = some sid
    · rw [if_pos hdel] at hi
      rcases hfil : states.filter (fun s => decide (s.id ≠ sid)) with _ | ⟨s0, rest⟩
      · rw [hfil] at hi
        cases hi
      · rw [hfil] at hi
        simp only [Option.some_inj] at hi
        subst hi
        exact ⟨s0, by rw [hfil]; exact List.mem_cons_self _ _, rfl⟩
    · rw [if_neg hdel] at hi
      obtain ⟨s, hs, hsid⟩ := h i hi
      refine ⟨s, List.mem_filter.mpr ⟨hs, ?_⟩, hsid⟩
      have : i ≠ sid := fun hcontra => hdel (by rw [hi, hcontra])
      simp [hsid, this]
  · rintro ⟨s, hs, hsid⟩ i hi
    simp only [handleSetInitialState, Option.some_inj] at hi
    exact ⟨s, hs, by rw [hsid, hi]⟩

theorem editor_preserves_initial_ref_witness :
    (handleAddState [] none 1 false).2 = some "state_1" :=
  (editor_preserves_initial_ref [] none 1 false "x"
    (fun i hi => by cases hi)).2.1 rfl

/-- C3: a transition with an empty rules list never fires: it is never the
transition selected by a tick, and when every outgoing transition has no
rules the tick leaves the current state unchanged. -/
theorem emptyRules_transition_never_fires (ctx : TickContext)
    (transitions : List Transition) (currentStateId : String) :
    (∀ t : Transition, t.rules = [] → transitionFires ctx t = false)
    ∧ (∀ t : Transition, selectTransition ctx transitions currentStateId = some t →
        t.rules ≠ [])
    ∧ ((∀ t ∈ transitions, t.rules = []) →
        tickNextState ctx transitions currentStateId = currentStateId) := by
  have hfire : ∀ t : Transition, t.rules = [] → transitionFires ctx t = false := by
    intro t ht
    unfold transitionFires
    rw [ht]
    rfl
  refine ⟨hfire, ?_, ?_⟩
  · intro t hsel hrules
    have := List.find?_some hsel
    rw [hfire t hrules] at this
    cases this
  · intro hall
    unfold tickNextState
    have hnone : selectTransition ctx transitions currentStateId = none := by
      unfold selectTransition
      apply List.find?_eq_none.mpr
      intro t ht
      have htmem : t ∈ transitions := (List.mem_filter.mp ht).1
      rw [hfire t (hall t htmem)]
      exact Bool.false_ne_true
    rw [hnone]

theorem emptyRules_transition_never_fires_witness :
    transitionFires ⟨0, 0, []⟩ ⟨"t1", "a", "b", []⟩ = false
    ∧ tickNextState ⟨0, 0, []⟩ [⟨"t1", "a", "b", []⟩] "a" = "a" :=
  ⟨(emptyRules_transition_never_fires ⟨0, 0, []⟩ [] "a").1 _ rfl,
   (emptyRules_transition_never_fires ⟨0, 0, []⟩ [⟨"t1", "a", "b", []⟩] "a").2.2
     (by intro t ht; simp at ht; rw [ht])⟩


theorem decodeList_map {α : Type} (d : Json → Option α) (enc : α → Json)
    (h : ∀ a, d (enc a) = some a) : ∀ l : List α, decodeList d (l.map enc) = some l := by
  intro l
  induction l with
  | nil => rfl
  | cons x xs ih =>
    simp only [List.map_cons, decodeList, h x, ih]

theorem decodeSignal_encodeSignal (s : SignalDef) :
    decodeSignal (encodeSignal s) = some s := rfl

theorem decodeSignalModeConfig_encodeSignalModeConfig (c : SignalModeConfig) :
    decodeSignalModeConfig (encodeSignalModeConfig c) = some c := rfl

theorem decodeMode_encodeMode (m : ModeDef) : decodeMode (encodeMode m) = some m := by
  show (decodeList (fun pj =>
      match pj with
      | Json.obj pf => (jlookup pf "name").bind asString
      | _ => none) (m.parameters.map (fun n => Json.obj [("name", Json.str n)]))).bind
      (fun ps => some ⟨m.id, m.name, m.enableCommands, m.disableCommands, ps⟩) = some m
  rw [decodeList_map (fun pj =>
      match pj with
      | Json.obj pf => (jlookup pf "name").bind asString
      | _ => none) (fun n => Json.obj [("name", Json.str n)]) (fun n => rfl)]
  rfl

/-- C5: loading the capability JSON that the instrument wizard persists into
the instrument description field recovers the capability definition
unchanged: `decodeCapability (encodeCapability D) = some D` (the
`JSON.parse ∘ JSON.stringify` pair between the two is the identity on JSON
trees and is modelled as such). -/
theorem capability_load_persist_id (c : CapabilityDoc) :
    decodeCapability (encodeCapability c) = some c := by
  obtain ⟨d, sigs, mods, smcs⟩ := c
  show (decodeList decodeSignal (sigs.map encodeSignal)).bind (fun signals =>
      (decodeList decodeMode (mods.map encodeMode)).bind (fun modes =>
        (decodeList decodeSignalModeConfig (smcs.map encodeSignalModeConfig)).bind
          (fun signalModeConfigs =>
            some (CapabilityDoc.mk d signals modes signalModeConfigs)))) =
      some (CapabilityDoc.mk d sigs mods smcs)
  rw [decodeList_map decodeSignal encodeSignal decodeSignal_encodeSignal,
    decodeList_map decodeMode encodeMode decodeMode_encodeMode,
    decodeList_map decodeSignalModeConfig encodeSignalModeConfig
      decodeSignalModeConfig_encodeSignalModeConfig]
  rfl


theorem replaceFirstList_append (pat rep b : List Char) :
    replaceFirstList pat rep (pat ++ b) = rep ++ b := by
  cases pat with
  | nil =>
    cases b with
    | nil => simp [replaceFirstList, List.isPrefixOf]
    | cons c cs => simp [replaceFirstList, List.isPrefixOf]
  | cons p ps =>
    have hpre : (p :: ps).isPrefixOf (p :: (ps ++ b)) = true :=
      List.isPrefixOf_iff_prefix.mpr (List.prefix_append (p :: ps) b)
    simp only [List.cons_append, replaceFirstList, List.append_eq]
    rw [hpre]
    simp only [if_true, List.length_cons, List.drop_succ_cons, List.drop_left]

theorem replaceFirstList_first_occurrence :
    ∀ (a pat rep b : List Char),
      (∀ i, i < a.length → pat.isPrefixOf ((a ++ pat ++ b).drop i) = false) →
      replaceFirstList pat rep (a ++ pat ++ b) = a ++ rep ++ b := by
  intro a
  induction a with
  | nil =>
    intro pat rep b _
    simpa using replaceFirstList_append pat rep b
  | cons c a ih =>
    intro pat rep b h
    have h0 : pat.isPrefixOf (c :: (a ++ pat ++ b)) = false := by
      have := h 0 (by simp)
      simpa using this
    simp only [List.cons_append, replaceFirstList, List.append_eq, h0,
      Bool.false_eq_true, if_false]
    rw [ih pat rep b]
    intro i hi
    have := h (i + 1) (by simpa using Nat.succ_lt_succ hi)
    simpa using this

/-- C1 counterexample: with command `SET {v} {v}` and parameter `v = 5`, the
command sent by `executeCommand` is `SET 5 {v}`: only the first occurrence of
the `{v}` placeholder is replaced, not every occurrence as the claim
states. -/
theorem executeCommandSent_duplicate_placeholder :
    executeCommandSent "SET {v} {v}" [("v", "5")] = "SET 5 {v}"
    ∧ executeCommandSent "SET {v} {v}" [("v", "5")] ≠ "SET 5 5" := by
  constructor
  · decide
  · decide

/-- C1 (amended): mode activation replaces, for each parameter in map order,
only the first occurrence of its `{name}` placeholder: when the command is
`a ++ "{k}" ++ b` and no occurrence of `{k}` starts before position
`a.length`, the sent command is `a ++ v ++ b`, leaving any later occurrences
inside `b` untouched. -/
theorem executeCommandSent_first_occurrence (a k v b : String)
    (h : ∀ i, i < a.data.length →
      ("\x7b" ++ k ++ "\x7d").data.isPrefixOf
        ((a ++ ("\x7b" ++ k ++ "\x7d") ++ b).data.drop i) = false) :
    executeCommandSent (a ++ ("\x7b" ++ k ++ "\x7d") ++ b) [(k, v)] = a ++ v ++ b := by
  unfold executeCommandSent
  simp only [List.foldl_cons, List.foldl_nil]
  unfold replaceFirst
  apply String.ext
  show replaceFirstList ("\x7b" ++ k ++ "\x7d").data v.data
      (a.data ++ ("\x7b" ++ k ++ "\x7d").data ++ b.data) =
    a.data ++ v.data ++ b.data
  exact replaceFirstList_first_occurrence a.data ("\x7b" ++ k ++ "\x7d").data v.data b.data h

theorem executeCommandSent_first_occurrence_witness :
    executeCommandSent ("SET " ++ ("\x7b" ++ "v" ++ "\x7d") ++ " END") [("v", "5")] =
      "SET " ++ "5" ++ " END" :=
  executeCommandSent_first_occurrence "SET " "v" "5" " END" (by decide)


/-- A validation message produced by the initial-state checks 2-4. -/
def isInitialStateMsg (m : VMsg) : Prop :=
  m = VMsg.noInitialState ∨ (∃ i, m = VMsg.initialStateMissing i) ∨
    (∃ a b, m = VMsg.initialStateIsEnd a b)

/-- The `start(setup_id)` precondition failures of the claim: the initial
state id is unset (or blank, which JS truthiness treats as unset), references
no state of the list, or references an end state. -/
def badInitial (l : List SMState) (init : Option String) : Prop :=
  strFalsy init = true
  ∨ (∃ i, init = some i ∧ i ≠ "" ∧ l.find? (fun s => s.id == i) = none)
  ∨ (∃ i st, init = some i ∧ i ≠ "" ∧ l.find? (fun s => s.id == i) = some st ∧
      st.isEndState = true)

theorem initialIssues_of_bad (l : List SMState) (init : Option String)
    (h : badInitial l init) :
    ∃ iss, initialIssues l init = [iss] ∧ iss.severity = Severity.error ∧
      isInitialStateMsg iss.message := by
  rcases h with h | ⟨i, hi, hne, hfind⟩ | ⟨i, st, hi, hne, hfind, hend⟩
  · cases init with
    | none => exact ⟨_, rfl, rfl, Or.inl rfl⟩
    | some s =>
      have hs : s = "" := by simpa [strFalsy] using h
      subst hs
      exact ⟨⟨Severity.error, VMsg.noInitialState, none, none⟩, by simp [initialIssues],
        rfl, Or.inl rfl⟩
  · subst hi
    exact ⟨⟨Severity.error, VMsg.initialStateMissing i, some i, none⟩,
      by simp [initialIssues, hne, hfind], rfl, Or.inr (Or.inl ⟨i, rfl⟩)⟩
  · subst hi
    exact ⟨⟨Severity.error, VMsg.initialStateIsEnd st.id st.name, some st.id, some st.name⟩,
      by simp [initialIssues, hne, hfind, hend], rfl,
      Or.inr (Or.inr ⟨st.id, st.name, rfl⟩)⟩

/-- C2 (amended): for a setup found by id whose states list is non-empty,
each failing `start` precondition on the initial state makes
`validateStateMachine` invalid with a corresponding initial-state error, and
`handleStartStateMachine` does not issue the start request.  (A setup whose
states list is empty or missing bypasses this front-end validation, per the
counterexample.) -/
theorem smStartIssued_refuses_bad_initial (setups : List Setup) (id : Nat)
    (confirmWarnings : Bool) (setup : Setup) (l : List SMState)
    (hfind : setups.find? (fun s => s.id == id) = some setup)
    (hstates : setup.states = some l) (hne : l ≠ [])
    (hbad : badInitial l setup.initialStateID) :
    (validateStateMachine l (setup.transitions.getD []) setup.initialStateID).valid = false
    ∧ (∃ e ∈ (validateStateMachine l (setup.transitions.getD [])
        setup.initialStateID).errors, isInitialStateMsg e.message)
    ∧ smStartIssued setups id confirmWarnings = false := by
  obtain ⟨iss, hiss, _, hmsg⟩ := initialIssues_of_bad l setup.initialStateID hbad
  have herr : iss ∈ (validateStateMachine l (setup.transitions.getD [])
      setup.initialStateID).errors := by
    rw [validate_errors_eq _ _ _ hne, hiss]
    exact List.mem_append_left _ (List.mem_append_left _ (List.mem_singleton_self _))
  have hvalidFalse : (validateStateMachine l (setup.transitions.getD [])
      setup.initialStateID).valid = false := by
    rw [validate_valid_eq _ _ _ hne]
    have hnn := List.ne_nil_of_mem herr
    exact Bool.eq_false_iff.mpr (fun htrue => hnn (List.isEmpty_iff.mp htrue))
  refine ⟨hvalidFalse, ⟨iss, herr, hmsg⟩, ?_⟩
  simp only [smStartIssued, hfind, hstates]
  rw [if_neg hne]
  simp [hvalidFalse]

/-- C2 counterexample: for a setup whose states list is empty but whose
`initialStateID` is set to an id that references no state,
`handleStartStateMachine` skips validation and issues the start request even
though `validateStateMachine` reports the configuration invalid. -/
theorem smStartIssued_empty_states_counterexample :
    smStartIssued [⟨1, "s", 1, some [], some [], some "x"⟩] 1 true = true
    ∧ (validateStateMachine [] [] (some "x")).valid = false := by
  constructor
  · decide
  · decide

theorem smStartIssued_refuses_bad_initial_witness :
    smStartIssued [⟨1, "s", 1, some [⟨"a", "A", false, []⟩], some [], none⟩] 1 true =
      false :=
  (smStartIssued_refuses_bad_initial
    [⟨1, "s", 1, some [⟨"a", "A", false, []⟩], some [], none⟩] 1 true
    ⟨1, "s", 1, some [⟨"a", "A", false, []⟩], some [], none⟩ [⟨"a", "A", false, []⟩]
    (by decide) rfl (by decide) (Or.inl rfl)).2.2


theorem exists_enumFrom_mem {α : Type} (x : α) :
    ∀ (l : List α) (k : Nat), x ∈ l → ∃ i, (i, x) ∈ l.enumFrom k := by
  intro l
  induction l with
  | nil => intro k h; cases h
  | cons y ys ih =>
    intro k h
    rcases List.mem_cons.mp h with rfl | h'
    · exact ⟨k, by rw [List.enumFrom_cons]; exact List.mem_cons_self _ _⟩
    · obtain ⟨i, hi⟩ := ih (k + 1) h'
      exact ⟨i, by rw [List.enumFrom_cons]; exact List.mem_cons_of_mem _ hi⟩

theorem exists_enum_mem {α : Type} (x : α) (l : List α) (h : x ∈ l) :
    ∃ i, (i, x) ∈ l.enum :=
  exists_enumFrom_mem x l 0 h

/-- A rule of one of the two time kinds. -/
def isTimeRule (r : Rule) : Prop :=
  r.type = RuleType.timeInState ∨ r.type = RuleType.totalTime

/-- A `seconds` field that is missing, null, or negative. -/
def badSeconds (o : Option ℚ) : Prop :=
  o = none ∨ ∃ s, o = some s ∧ s < 0

theorem ruleIssues_bad_time (states : List SMState) (t : Transition) (idx : Nat)
    (r : Rule) (htype : isTimeRule r) (hbad : badSeconds r.seconds) :
    (⟨Severity.error, VMsg.invalidTimeValue idx (getStateName states t.sourceStateID),
      none, none⟩ : ValidationIssue) ∈ ruleIssues states t idx r := by
  obtain ⟨ty, sn, op, v, sec⟩ := r
  simp only [isTimeRule] at htype
  simp only [badSeconds] at hbad
  rcases htype with h | h <;> (cases h) <;>
    rcases hbad with h2 | ⟨s, h2, hs⟩ <;> (cases h2) <;>
    simp [ruleIssues, *]

theorem ruleIssues_invalidTime_inv (states : List SMState) (t : Transition)
    (idx : Nat) (r : Rule) (e : ValidationIssue) (he : e ∈ ruleIssues states t idx r)
    (hm : ∃ n nm, e.message = VMsg.invalidTimeValue n nm) :
    isTimeRule r ∧ badSeconds r.seconds := by
  obtain ⟨n, nm, hmsg⟩ := hm
  obtain ⟨ty, sn, op, v, sec⟩ := r
  cases ty with
  | sensor =>
    exfalso
    simp only [ruleIssues, List.mem_append] at he
    rcases he with (he | he) | he <;> split_ifs at he <;>
      simp only [List.mem_singleton, List.not_mem_nil] at he <;> simp_all
  | timeInState =>
    refine ⟨Or.inl rfl, ?_⟩
    cases sec with
    | none => exact Or.inl rfl
    | some s =>
      simp only [ruleIssues] at he
      split_ifs at he with hlt
      · exact Or.inr ⟨s, rfl, hlt⟩
      · cases he
  | totalTime =>
    refine ⟨Or.inr rfl, ?_⟩
    cases sec with
    | none => exact Or.inl rfl
    | some s =>
      simp only [ruleIssues] at he
      split_ifs at he with hlt
      · exact Or.inr ⟨s, rfl, hlt⟩
      · cases he

theorem transitionIssues_invalidTime_inv (states : List SMState) (idx : Nat)
    (t : Transition) (e : ValidationIssue) (he : e ∈ transitionIssues states idx t)
    (hm : ∃ n nm, e.message = VMsg.invalidTimeValue n nm) :
    ∃ r ∈ t.rules, isTimeRule r ∧ badSeconds r.seconds := by
  simp only [transitionIssues] at he
  rcases List.mem_append.mp he with he' | he'
  · exfalso
    obtain ⟨n, nm, hmsg⟩ := hm
    rcases List.mem_append.mp he' with he'' | he'' <;> split_ifs at he'' <;> simp_all
  · by_cases hr : t.rules = []
    · exfalso
      obtain ⟨n, nm, hmsg⟩ := hm
      rw [if_pos hr] at he'
      simp_all
    · rw [if_neg hr] at he'
      rcases List.mem_flatten.mp he' with ⟨L, hL, heL⟩
      rcases List.mem_map.mp hL with ⟨p, hp, rfl⟩
      exact ⟨p.2, List.snd_mem_of_mem_enum hp,
        ruleIssues_invalidTime_inv states t p.1 p.2 e heL hm⟩

theorem initialIssues_msg (states : List SMState) (init : Option String)
    (e : ValidationIssue) (he : e ∈ initialIssues states init) :
    isInitialStateMsg e.message := by
  cases init with
  | none =>
    simp only [initialIssues, List.mem_singleton] at he
    subst he
    exact Or.inl rfl
  | some i =>
    simp only [initialIssues] at he
    split_ifs at he with hi
    · simp only [List.mem_singleton] at he
      subst he
      exact Or.inl rfl
    · split at he
      · simp only [List.mem_singleton] at he
        subst he
        exact Or.inr (Or.inl ⟨i, rfl⟩)
      · rename_i st _
        split_ifs at he with hend
        · simp only [List.mem_singleton] at he
          subst he
          exact Or.inr (Or.inr ⟨st.id, st.name, rfl⟩)
        · cases he

theorem duplicateIssues_msg (states : List SMState) (e : ValidationIssue)
    (he : e ∈ duplicateIssues states) : ∃ d, e.message = VMsg.duplicateStateIds d := by
  simp only [duplicateIssues] at he
  split_ifs at he with h
  · cases he
  · simp only [List.mem_singleton] at he
    subst he
    exact ⟨_, rfl⟩

/-- C7: a transition containing a `timeInState` or `totalTime` rule whose
`seconds` is missing, null, or negative makes `validateStateMachine` report
an error (so `valid = false`); when every time rule of every transition has
`seconds ≥ 0`, the errors list contains no invalid-time-value error. -/
theorem validateStateMachine_time_rules (states : List SMState)
    (ts : List Transition) (init : Option String) :
    (∀ t ∈ ts, ∀ r ∈ t.rules, isTimeRule r → badSeconds r.seconds →
      (validateStateMachine states ts init).errors ≠ [] ∧
        (validateStateMachine states ts init).valid = false)
    ∧ ((∀ t ∈ ts, ∀ r ∈ t.rules, isTimeRule r → ∃ s, r.seconds = some s ∧ 0 ≤ s) →
      ∀ e ∈ (validateStateMachine states ts init).errors, ∀ n nm,
        e.message ≠ VMsg.invalidTimeValue n nm) := by
  constructor
  · intro t ht r hr htype hbad
    by_cases hs : states = []
    · subst hs
      unfold validateStateMachine
      simp
    · obtain ⟨ridx, hridx⟩ := exists_enum_mem r t.rules hr
      obtain ⟨tidx, htidx⟩ := exists_enum_mem t ts ht
      have h1 := ruleIssues_bad_time states t ridx r htype hbad
      have h2 : (⟨Severity.error,
          VMsg.invalidTimeValue ridx (getStateName states t.sourceStateID), none, none⟩ :
          ValidationIssue) ∈ transitionIssues states tidx t := by
        simp only [transitionIssues]
        refine List.mem_append_right _ ?_
        rw [if_neg (by intro hnil; rw [hnil] at hr; cases hr)]
        exact List.mem_flatten.mpr
          ⟨ruleIssues states t ridx r, List.mem_map.mpr ⟨(ridx, r), hridx, rfl⟩, h1⟩
      have h3 : (⟨Severity.error,
          VMsg.invalidTimeValue ridx (getStateName states t.sourceStateID), none, none⟩ :
          ValidationIssue) ∈
          ((ts.enum.map (fun p => transitionIssues states p.1 p.2)).flatten.filter
            (fun e => e.severity == Severity.error)) :=
        List.mem_filter.mpr
          ⟨List.mem_flatten.mpr
            ⟨transitionIssues states tidx t, List.mem_map.mpr ⟨(tidx, t), htidx, rfl⟩, h2⟩,
           rfl⟩
      have herr : (⟨Severity.error,
          VMsg.invalidTimeValue ridx (getStateName states t.sourceStateID), none, none⟩ :
          ValidationIssue) ∈ (validateStateMachine states ts init).errors := by
        rw [validate_errors_eq _ _ _ hs]
        exact List.mem_append_right _ h3
      have hnn := List.ne_nil_of_mem herr
      refine ⟨hnn, ?_⟩
      rw [validate_valid_eq _ _ _ hs]
      exact Bool.eq_false_iff.mpr (fun htrue => hnn (List.isEmpty_iff.mp htrue))
  · intro hgood e he n nm hmsg
    by_cases hs : states = []
    · subst hs
      simp only [validateStateMachine, if_true, List.mem_singleton] at he
      subst he
      simp at hmsg
    · rw [validate_errors_eq _ _ _ hs] at he
      rcases List.mem_append.mp he with he' | he'
      · rcases List.mem_append.mp he' with he'' | he''
        · have := initialIssues_msg states init e he''
          rcases this with h | ⟨i, h⟩ | ⟨a, b, h⟩ <;> rw [hmsg] at h <;> cases h
        · obtain ⟨d, h⟩ := duplicateIssues_msg states e he''
          rw [hmsg] at h
          cases h
      · rcases List.mem_flatten.mp (List.mem_filter.mp he').1 with ⟨L, hL, heL⟩
        rcases List.mem_map.mp hL with ⟨p, hp, rfl⟩
        obtain ⟨r, hr, htype, hbad⟩ :=
          transitionIssues_invalidTime_inv states p.1 p.2 e heL ⟨n, nm, hmsg⟩
        obtain ⟨s, hsec, hge⟩ := hgood p.2 (List.snd_mem_of_mem_enum hp) r hr htype
        rcases hbad with hnone | ⟨s', hs', hlt⟩
        · rw [hsec] at hnone
          cases hnone
        · rw [hsec] at hs'
          injection hs' with hss
          subst hss
          exact absurd hge (not_le.mpr hlt)

theorem validateStateMachine_time_rules_witness :
    (validateStateMachine [⟨"a", "A", false, []⟩]
      [⟨"t1", "a", "a", [⟨RuleType.timeInState, none, none, none, none⟩]⟩]
      (some "a")).valid = false :=
  ((validateStateMachine_time_rules [⟨"a", "A", false, []⟩]
      [⟨"t1", "a", "a", [⟨RuleType.timeInState, none, none, none, none⟩]⟩]
      (some "a")).1
    ⟨"t1", "a", "a", [⟨RuleType.timeInState, none, none, none, none⟩]⟩ (by decide)
    ⟨RuleType.timeInState, none, none, none, none⟩ (by decide)
    (Or.inl rfl) (Or.inl rfl)).2


theorem si_factor_pos : ∀ p ∈ SI_PREFIXES, (0 : ℚ) < p.2 := by
  intro p hp
  fin_cases hp <;> norm_num

theorem exists_si_prefix (a : ℚ) (hlo : 1 / 10 ^ 9 ≤ a) (hhi : a < 10 ^ 15) :
    ∃ p ∈ SI_PREFIXES, 1 ≤ a / p.2 ∧ a / p.2 < 1000 := by
  rcases le_or_lt (10 ^ 12 : ℚ) a with h | h
  · refine ⟨("T", 10 ^ 12), by simp [SI_PREFIXES], ?_, ?_⟩
    · show (1 : ℚ) ≤ a / 10 ^ 12
      rw [le_div_iff₀ (by norm_num)]
      linarith
    · show a / (10 ^ 12 : ℚ) < 1000
      rw [div_lt_iff₀ (by norm_num)]
      have he : (1000 : ℚ) * 10 ^ 12 = 10 ^ 15 := by norm_num
      linarith
  rcases le_or_lt (10 ^ 9 : ℚ) a with h2 | h2
  · refine ⟨("G", 10 ^ 9), by simp [SI_PREFIXES], ?_, ?_⟩
    · show (1 : ℚ) ≤ a / 10 ^ 9
      rw [le_div_iff₀ (by norm_num)]
      linarith
    · show a / (10 ^ 9 : ℚ) < 1000
      rw [div_lt_iff₀ (by norm_num)]
      have he : (1000 : ℚ) * 10 ^ 9 = 10 ^ 12 := by norm_num
      linarith
  rcases le_or_lt (10 ^ 6 : ℚ) a with h3 | h3
  · refine ⟨("M", 10 ^ 6), by simp [SI_PREFIXES], ?_, ?_⟩
    · show (1 : ℚ) ≤ a / 10 ^ 6
      rw [le_div_iff₀ (by norm_num)]
      linarith
    · show a / (10 ^ 6 : ℚ) < 1000
      rw [div_lt_iff₀ (by norm_num)]
      have he : (1000 : ℚ) * 10 ^ 6 = 10 ^ 9 := by norm_num
      linarith
  rcases le_or_lt (10 ^ 3 : ℚ) a with h4 | h4
  · refine ⟨("k", 10 ^ 3), by simp [SI_PREFIXES], ?_, ?_⟩
    · show (1 : ℚ) ≤ a / 10 ^ 3
      rw [le_div_iff₀ (by norm_num)]
      linarith
    · show a / (10 ^ 3 : ℚ) < 1000
      rw [div_lt_iff₀ (by norm_num)]
      have he : (1000 : ℚ) * 10 ^ 3 = 10 ^ 6 := by norm_num
      linarith
  rcases le_or_lt (1 : ℚ) a with h5 | h5
  · refine ⟨("", 1), by simp [SI_PREFIXES], ?_, ?_⟩
    · show (1 : ℚ) ≤ a / 1
      rw [le_div_iff₀ (by norm_num)]
      linarith
    · show a / (1 : ℚ) < 1000
      rw [div_lt_iff₀ (by norm_num)]
      have he : (1000 : ℚ) * 1 = 10 ^ 3 := by norm_num
      linarith
  rcases le_or_lt (1 / 10 ^ 3 : ℚ) a with h6 | h6
  · refine ⟨("m", 1 / 10 ^ 3), by simp [SI_PREFIXES], ?_, ?_⟩
    · show (1 : ℚ) ≤ a / (1 / 10 ^ 3)
      rw [le_div_iff₀ (by norm_num)]
      linarith
    · show a / (1 / 10 ^ 3 : ℚ) < 1000
      rw [div_lt_iff₀ (by norm_num)]
      have he : (1000 : ℚ) * (1 / 10 ^ 3) = 1 := by norm_num
      linarith
  rcases le_or_lt (1 / 10 ^ 6 : ℚ) a with h7 | h7
  · refine ⟨("µ", 1 / 10 ^ 6), by simp [SI_PREFIXES], ?_, ?_⟩
    · show (1 : ℚ) ≤ a / (1 / 10 ^ 6)
      rw [le_div_iff₀ (by norm_num)]
      linarith
    · show a / (1 / 10 ^ 6 : ℚ) < 1000
      rw [div_lt_iff₀ (by norm_num)]
      have he : (1000 : ℚ) * (1 / 10 ^ 6) = 1 / 10 ^ 3 := by norm_num
      linarith
  · refine ⟨("n", 1 / 10 ^ 9), by simp [SI_PREFIXES], ?_, ?_⟩
    · show (1 : ℚ) ≤ a / (1 / 10 ^ 9)
      rw [le_div_iff₀ (by norm_num)]
      linarith
    · show a / (1 / 10 ^ 9 : ℚ) < 1000
      rw [div_lt_iff₀ (by norm_num)]
      have he : (1000 : ℚ) * (1 / 10 ^ 9) = 1 / 10 ^ 6 := by norm_num
      linarith

/-- C10: for a finite non-zero value whose base unit is scalable and whose
magnitude lies in `[1e-9, 1e15)`, `formatWithSIPrefix` picks a factor from
the SI-prefix table with `1 ≤ |v / factor| < 1000` and reports
`value = v / factor`; a null, undefined, or NaN input yields
`valueDisplay = 'N/A'` with factor 1. -/
theorem formatWithSIPrefix_spec (v : ℚ) (u : String) (digits : Nat)
    (hu : u ∈ SCALE_UNITS) (hv : v ≠ 0)
    (hlo : 1 / 10 ^ 9 ≤ |v|) (hhi : |v| < 10 ^ 15) :
    ((formatWithSIPrefix (JsNum.num v) (some u) digits).factor ∈ SI_PREFIXES.map Prod.snd
      ∧ 1 ≤ |v / (formatWithSIPrefix (JsNum.num v) (some u) digits).factor|
      ∧ |v / (formatWithSIPrefix (JsNum.num v) (some u) digits).factor| < 1000
      ∧ (formatWithSIPrefix (JsNum.num v) (some u) digits).value =
          JsNum.num (v / (formatWithSIPrefix (JsNum.num v) (some u) digits).factor))
    ∧ (∀ w d, (formatWithSIPrefix JsNum.null w d).valueDisplay = Display.na
        ∧ (formatWithSIPrefix JsNum.null w d).factor = 1
        ∧ (formatWithSIPrefix JsNum.undef w d).valueDisplay = Display.na
        ∧ (formatWithSIPrefix JsNum.undef w d).factor = 1
        ∧ (formatWithSIPrefix JsNum.nan w d).valueDisplay = Display.na
        ∧ (formatWithSIPrefix JsNum.nan w d).factor = 1) := by
  refine ⟨?_, fun w d => ⟨rfl, rfl, rfl, rfl, rfl, rfl⟩⟩
  have hno : NO_SCALE_UNITS.contains u = false := by fin_cases hu <;> decide
  have hsc : SCALE_UNITS.contains u = true := by fin_cases hu <;> decide
  have habs : |v| ≠ 0 := abs_ne_zero.mpr hv
  obtain ⟨p, hpmem, hppred⟩ := exists_si_prefix |v| hlo hhi
  have hfind : (SI_PREFIXES.find?
      (fun p => decide (1 ≤ |v| / p.2 ∧ |v| / p.2 < 1000))).isSome :=
    List.find?_isSome.mpr ⟨p, hpmem, decide_eq_true hppred⟩
  obtain ⟨q, hq⟩ := Option.isSome_iff_exists.mp hfind
  have hqmem := List.mem_of_find?_eq_some hq
  have hq2 := List.find?_some hq
  have hqpred : 1 ≤ |v| / q.2 ∧ |v| / q.2 < 1000 := of_decide_eq_true hq2
  have hqpos : (0 : ℚ) < q.2 := si_factor_pos q hqmem
  have heval : formatWithSIPrefix (JsNum.num v) (some u) digits =
      ⟨JsNum.num (v / q.2), Display.toFixed (v / q.2) digits, q.1 ++ u, q.2⟩ := by
    simp only [formatWithSIPrefix, Option.getD_some, hno, hsc, Bool.not_true,
      Bool.or_false, Bool.false_or, if_false]
    rw [if_neg habs, hq]
    simp
  rw [heval]
  have habsdiv : |v / q.2| = |v| / q.2 := by
    rw [abs_div, abs_of_pos hqpos]
  exact ⟨List.mem_map_of_mem Prod.snd hqmem, by rw [habsdiv]; exact hqpred.1,
    by rw [habsdiv]; exact hqpred.2, rfl⟩

theorem formatWithSIPrefix_spec_witness :
    1 ≤ |2500 / (formatWithSIPrefix (JsNum.num 2500) (some "V") 2).factor|
    ∧ (formatWithSIPrefix (JsNum.num 2500) (some "V") 2).factor ∈
        SI_PREFIXES.map Prod.snd := by
  have h := (formatWithSIPrefix_spec 2500 "V" 2 (by decide) (by norm_num)
    (by rw [abs_of_pos (by norm_num : (0 : ℚ) < 2500)]; norm_num)
    (by rw [abs_of_pos (by norm_num : (0 : ℚ) < 2500)]; norm_num)).1
  exact ⟨h.2.1, h.1⟩


/-- A directed path from `start` along transitions (source to target). -/
inductive Reaches (transitions : List Transition) (start : String) : String → Prop
  | refl : Reaches transitions start start
  | step (t : Transition) (ht : t ∈ transitions)
      (hsrc : Reaches transitions start t.sourceStateID) :
      Reaches transitions start t.targetStateID

theorem reachStep_extends (r : List String) (t : Transition) :
    List.IsPrefix r (reachStep r t) := by
  unfold reachStep
  split
  · exact List.prefix_append _ _
  · exact List.prefix_refl _

theorem foldl_reachStep_extends : ∀ (l : List Transition) (r : List String),
    List.IsPrefix r (l.foldl reachStep r) := by
  intro l
  induction l with
  | nil => intro r; exact List.prefix_refl _
  | cons t l ih => intro r; exact (reachStep_extends r t).trans (ih (reachStep r t))

theorem mem_foldl_reachStep : ∀ (l : List Transition) (r : List String) (x : String),
    x ∈ l.foldl reachStep r → x ∈ r ∨ x ∈ l.map (·.targetStateID) := by
  intro l
  induction l with
  | nil => intro r x hx; exact Or.inl hx
  | cons t l ih =>
    intro r x hx
    rcases ih (reachStep r t) x hx with h | h
    · unfold reachStep at h
      split at h
      · rcases List.mem_append.mp h with h1 | h1
        · exact Or.inl h1
        · simp only [List.mem_singleton] at h1
          subst h1
          exact Or.inr (by rw [List.map_cons]; exact List.mem_cons_self _ _)
      · exact Or.inl h
    · exact Or.inr (by rw [List.map_cons]; exact List.mem_cons_of_mem _ h)

theorem nodup_foldl_reachStep : ∀ (l : List Transition) (r : List String),
    r.Nodup → (l.foldl reachStep r).Nodup := by
  intro l
  induction l with
  | nil => exact fun r h => h
  | cons t l ih =>
    intro r h
    apply ih
    unfold reachStep
    split
    · rename_i hc
      rw [List.nodup_append]
      exact ⟨h, List.nodup_singleton _,
        fun a ha hb => hc.2 ((List.mem_singleton.mp hb) ▸ ha)⟩
    · exact h

theorem length_lt_of_foldl_ne (l : List Transition) (r : List String)
    (h : l.foldl reachStep r ≠ r) : r.length < (l.foldl reachStep r).length := by
  obtain ⟨rest, hrest⟩ := foldl_reachStep_extends l r
  cases rest with
  | nil =>
    rw [List.append_nil] at hrest
    exact absurd hrest.symm h
  | cons y ys =>
    rw [← hrest, List.length_append, List.length_cons]
    omega

theorem foldl_reachStep_eq_of_targets_mem : ∀ (l : List Transition) (r : List String),
    (∀ t ∈ l, t.targetStateID ∈ r) → l.foldl reachStep r = r := by
  intro l
  induction l with
  | nil => intro r _; rfl
  | cons t l ih =>
    intro r h
    have hstep : reachStep r t = r := by
      unfold reachStep
      rw [if_neg]
      intro hc
      exact hc.2 (h t (List.mem_cons_self _ _))
    rw [List.foldl_cons, hstep]
    exact ih r (fun u hu => h u (List.mem_cons_of_mem _ hu))

theorem target_mem_foldl : ∀ (l : List Transition) (r : List String) (t : Transition),
    t ∈ l → t.sourceStateID ∈ r → t.targetStateID ∈ l.foldl reachStep r := by
  intro l
  induction l with
  | nil => intro r t ht; cases ht
  | cons u l ih =>
    intro r t ht hsrc
    rcases List.mem_cons.mp ht with rfl | ht'
    · have hmem : t.targetStateID ∈ reachStep r t := by
        unfold reachStep
        split
        · exact List.mem_append_right _ (List.mem_singleton_self _)
        · rename_i hc
          by_contra hno
          exact hc ⟨hsrc, hno⟩
      rw [List.foldl_cons]
      exact (foldl_reachStep_extends l (reachStep r t)).subset hmem
    · rw [List.foldl_cons]
      exact ih (reachStep r u) t ht' ((reachStep_extends r u).subset hsrc)

theorem reachPass_closure (ts : List Transition) (r : List String)
    (hfix : reachPass ts r = r) (t : Transition) (ht : t ∈ ts)
    (hsrc : t.sourceStateID ∈ r) : t.targetStateID ∈ r := by
  have hfix2 : ts.foldl reachStep r = r := hfix
  have hmem := target_mem_foldl ts r t ht hsrc
  rwa [hfix2] at hmem

theorem reachLoop_extends (ts : List Transition) : ∀ (n : Nat) (r : List String),
    List.IsPrefix r (reachLoop ts n r) := by
  intro n
  induction n with
  | zero => intro r; exact List.prefix_refl _
  | succ n ih =>
    intro r
    simp only [reachLoop]
    split
    · exact List.prefix_refl _
    · exact (foldl_reachStep_extends ts r).trans (ih (reachPass ts r))

theorem reachLoop_fixpoint (ts : List Transition) (i : String) :
    ∀ (n : Nat) (r : List String), r.Nodup →
      (∀ x ∈ r, x ∈ i :: ts.map (·.targetStateID)) →
      (i :: ts.map (·.targetStateID)).length ≤ n + r.length →
      reachPass ts (reachLoop ts n r) = reachLoop ts n r := by
  intro n
  induction n with
  | zero =>
    intro r hnd hsub hlen
    show reachPass ts r = r
    have hsp : List.Subperm r (i :: ts.map (·.targetStateID)) :=
      List.Nodup.subperm hnd hsub
    have hperm : List.Perm r (i :: ts.map (·.targetStateID)) :=
      hsp.perm_of_length_le (by simpa using hlen)
    apply foldl_reachStep_eq_of_targets_mem
    intro t ht
    exact hperm.symm.subset (List.mem_cons_of_mem _ (List.mem_map_of_mem _ ht))
  | succ n ih =>
    intro r hnd hsub hlen
    by_cases hch : reachPass ts r = r
    · show reachPass ts (reachLoop ts (n + 1) r) = reachLoop ts (n + 1) r
      simp only [reachLoop]
      rw [if_pos hch]
      exact hch
    · show reachPass ts (reachLoop ts (n + 1) r) = reachLoop ts (n + 1) r
      simp only [reachLoop]
      rw [if_neg hch]
      apply ih
      · exact nodup_foldl_reachStep ts r hnd
      · intro x hx
        rcases mem_foldl_reachStep ts r x hx with h | h
        · exact hsub x h
        · exact List.mem_cons_of_mem _ h
      · have hlt := length_lt_of_foldl_ne ts r hch
        have hlt2 : r.length < (reachPass ts r).length := hlt
        omega

theorem foldl_reachStep_reaches (ts : List Transition) (i : String) :
    ∀ (l : List Transition) (r : List String), (∀ t ∈ l, t ∈ ts) →
      (∀ y ∈ r, Reaches ts i y) → ∀ x ∈ l.foldl reachStep r, Reaches ts i x := by
  intro l
  induction l with
  | nil => intro r _ hr x hx; exact hr x hx
  | cons t l ih =>
    intro r hl hr x hx
    refine ih (reachStep r t) (fun u hu => hl u (List.mem_cons_of_mem _ hu)) ?_ x hx
    intro y hy
    unfold reachStep at hy
    split at hy
    · rename_i hc
      rcases List.mem_append.mp hy with h | h
      · exact hr y h
      · simp only [List.mem_singleton] at h
        subst h
        exact Reaches.step t (hl t (List.mem_cons_self _ _)) (hr _ hc.1)
    · exact hr y hy

theorem reachLoop_reaches (ts : List Transition) (i : String) :
    ∀ (n : Nat) (r : List String), (∀ y ∈ r, Reaches ts i y) →
      ∀ x ∈ reachLoop ts n r, Reaches ts i x := by
  intro n
  induction n with
  | zero => intro r hr x hx; exact hr x hx
  | succ n ih =>
    intro r hr x hx
    simp only [reachLoop] at hx
    split at hx
    · exact hr x hx
    · exact ih (reachPass ts r)
        (foldl_reachStep_reaches ts i ts r (fun _ h => h) hr) x hx

theorem reaches_mem_reachLoop (ts : List Transition) (i : String) (x : String)
    (hx : Reaches ts i x) : x ∈ reachLoop ts (ts.length + 1) [i] := by
  induction hx with
  | refl =>
    exact (reachLoop_extends ts (ts.length + 1) [i]).subset (List.mem_singleton_self i)
  | step t ht hsrc ih =>
    have hfix : reachPass ts (reachLoop ts (ts.length + 1) [i]) =
        reachLoop ts (ts.length + 1) [i] := by
      apply reachLoop_fixpoint ts i (ts.length + 1) [i] (List.nodup_singleton i)
      · intro y hy
        simp only [List.mem_singleton] at hy
        subst hy
        exact List.mem_cons_self _ _
      · simp only [List.length_cons, List.length_map, List.length_singleton]
        omega
    exact reachPass_closure ts _ hfix t ht ih

/-- C9 (amended): when `initialStateID` is a non-empty string,
`findUnreachableStates` returns exactly the states with no directed path from
it (its loop computes the reachability fixpoint); when `initialStateID` is
undefined — or the empty string, which JS truthiness also treats as unset —
it returns every state. -/
theorem findUnreachableStates_reachability (states : List SMState)
    (ts : List Transition) :
    findUnreachableStates states ts none = states
    ∧ findUnreachableStates states ts (some "") = states
    ∧ (∀ i, i ≠ "" → ∀ s, s ∈ findUnreachableStates states ts (some i) ↔
        s ∈ states ∧ ¬ Reaches ts i s.id) := by
  refine ⟨rfl, by simp [findUnreachableStates], ?_⟩
  intro i hi s
  have hiff : s.id ∈ reachLoop ts (ts.length + 1) [i] ↔ Reaches ts i s.id := by
    constructor
    · intro h
      refine reachLoop_reaches ts i (ts.length + 1) [i] ?_ s.id h
      intro y hy
      simp only [List.mem_singleton] at hy
      subst hy
      exact Reaches.refl
    · exact reaches_mem_reachLoop ts i s.id
  simp only [findUnreachableStates]
  rw [if_neg hi]
  simp only [List.mem_filter, decide_eq_true_eq]
  exact and_congr_right (fun _ => not_congr hiff)

/-- C9 counterexample: with `initialStateID = ""` (a defined value that JS
truthiness treats as unset) and a transition from `""` to `"a"`, the state
`"a"` is returned as unreachable even though a directed path from the initial
state id reaches it. -/
theorem findUnreachableStates_empty_initial_counterexample :
    findUnreachableStates [⟨"a", "A", false, []⟩] [⟨"t1", "", "a", []⟩] (some "") =
      [⟨"a", "A", false, []⟩]
    ∧ Reaches [⟨"t1", "", "a", []⟩] "" "a" :=
  ⟨rfl, Reaches.step ⟨"t1", "", "a", []⟩ (List.mem_singleton_self _) Reaches.refl⟩

theorem findUnreachableStates_reachability_witness :
    (⟨"b", "B", false, []⟩ : SMState) ∈ ([⟨"a", "A", false, []⟩, ⟨"b", "B", false, []⟩] :
        List SMState)
    ∧ ¬ Reaches [⟨"t1", "a", "a", []⟩] "a" "b" :=
  ((findUnreachableStates_reachability [⟨"a", "A", false, []⟩, ⟨"b", "B", false, []⟩]
      [⟨"t1", "a", "a", []⟩]).2.2 "a" (by decide) ⟨"b", "B", false, []⟩).mp (by decide)

end VxiDash
